import Mathlib

/- Verification of the chunked CSV cleaner
   `madhan-notebooks/Python_scripts/CLEANING_100000/Cleaning_dataset_to_remove_100000.py`.

   Rows are modelled as lists of string cell values aligned with a fixed header
   list (the script reads every column with `dtype=str`).  The text the script
   writes is modelled structurally, one constructor per line kind.  String
   handling is ASCII, matching the header names and the sentinel value the
   script compares against. -/

/-- ASCII lowercasing of a string, modelling Python `str.lower` on the ASCII
header names the script sees. -/
def lowerStr (s : String) : String := String.mk (s.data.map Char.toLower)

/-- Substring test, modelling Python `sub in s` for a nonempty `sub`. -/
def containsSub (sub s : String) : Bool :=
  (s.data.tails).any (fun t => sub.data.isPrefixOf t)

/-- Insertion into a Python dict modelled as an association list: an existing
key keeps its position and gets the new value; a new key is appended at the
end. -/
def dictInsert (d : List (String × String)) (k v : String) : List (String × String) :=
  if d.any (fun p => p.1 == k) then
    d.map (fun p => if p.1 == k then (k, v) else p)
  else d ++ [(k, v)]

/-- Model of the dict comprehension `{c.lower(): c for c in columns}` in
`_state_district_columns`. -/
def lowerCols (columns : List String) : List (String × String) :=
  columns.foldl (fun d c => dictInsert d (lowerStr c) c) []

/-- Model of `next((lower_cols[c] for c in lower_cols if sub in c), None)`:
the first key in dict iteration order that contains `sub`, returning the
value stored under it. -/
def firstMatch (sub : String) (d : List (String × String)) : Option String :=
  (d.find? (fun p => containsSub sub p.1)).map Prod.snd

/-- Model of `_state_district_columns`: probable state and district column
names, found by case-insensitive substring match over the header names.
`none` models Python's `None` (a matched header contains `"state"` or
`"district"`, hence is nonempty, so `None` is the only falsy value the
script's truthiness tests can see). -/
def state_district_columns (columns : List String) : Option String × Option String :=
  (firstMatch "state" (lowerCols columns), firstMatch "district" (lowerCols columns))

/-- Value of column `col` in a row whose cells align with `headers`; a
missing cell reads as absent, like the NaN a short CSV row gets. -/
def colValue (headers row : List String) (col : String) : Option String :=
  (headers.zip row).lookup col

/-- Model of the per-row comparison `chunk[c] == "100000"`: exact string
equality against the sentinel, no coercion, trimming or case folding. -/
def sentinelHit (headers row : List String) (col : String) : Bool :=
  colValue headers row col == some "100000"

/-- Model of the removal mask built in `_process_file`:
`mask = False`, then `mask |= (chunk[state_col] == "100000")` when a state
column is present, then likewise for the district column. -/
def removeMask (sc dc : Option String) (headers row : List String) : Bool :=
  (match sc with
   | some c => sentinelHit headers row c
   | none => false) ||
  (match dc with
   | some c => sentinelHit headers row c
   | none => false)

/-- Removal decision for one row under the role columns that
`_state_district_columns` detects from `headers`. -/
def removePredOf (headers row : List String) : Bool :=
  removeMask (state_district_columns headers).1 (state_district_columns headers).2 headers row

/-- One line of an output CSV file as written by `to_csv`: the
comma-separated header line or a comma-separated data row. -/
inductive OutLine where
  | header (cols : List String)
  | row (r : List String)
deriving DecidableEq

/-- One line of the audit log `removed_100000_entries.txt`: the `FILE:` line
naming a source file, the tab-separated header of a removed-rows dump, one
tab-separated removed row, or the blank separator line. -/
inductive LogLine where
  | file (rel : String)
  | header (cols : List String)
  | row (r : List String)
  | blank
deriving DecidableEq

/-- Lines `_process_file` appends to its log buffer for one chunk: nothing
when the chunk had no removed rows, otherwise the `FILE:` line, the
tab-separated dump of the removed rows (header and values), and a blank
separator line. -/
def chunkLogLines (rel : String) (headers : List String)
    (removed : List (List String)) : List LogLine :=
  if removed.isEmpty then []
  else LogLine.file rel :: LogLine.header headers :: (removed.map LogLine.row ++ [LogLine.blank])

/-- Lines `kept_rows.to_csv(target_path, mode="a", header=first_chunk)`
appends to the output file: the header line only on the first chunk, then
the rows. -/
def writeChunk (headers : List String) (first : Bool) (rows : List (List String)) : List OutLine :=
  (if first then [OutLine.header headers] else []) ++ rows.map OutLine.row

/-- Loop state of `_process_file`: output lines written so far, the
`first_chunk` and `removed_any` flags, and the log buffer. -/
structure FileState where
  out : List OutLine
  first_chunk : Bool
  removed_any : Bool
  log_lines : List LogLine
deriving DecidableEq

/-- Body of the `for chunk in pd.read_csv(...)` loop of `_process_file`,
including the per-chunk re-detection of the role columns over the (fixed)
header list. -/
def stepChunk (rel : String) (headers : List String) (s : FileState)
    (chunk : List (List String)) : FileState :=
  let sd := state_district_columns headers
  if sd.1.isNone && sd.2.isNone then
    { s with out := s.out ++ writeChunk headers s.first_chunk chunk, first_chunk := false }
  else
    let removed := chunk.filter (fun r => removeMask sd.1 sd.2 headers r)
    let kept := chunk.filter (fun r => !(removeMask sd.1 sd.2 headers r))
    { out := s.out ++ writeChunk headers s.first_chunk kept,
      first_chunk := false,
      removed_any := s.removed_any || !removed.isEmpty,
      log_lines := s.log_lines ++ chunkLogLines rel headers removed }

/-- Structural helper for `chunksOf`: `fuel` bounds the number of chunks
still to be produced (any value at least the list length gives the same
result, see `chunksOfFuel_of_le`). -/
def chunksOfFuel (n : Nat) : Nat → List α → List (List α)
  | _, [] => []
  | 0, _ :: _ => []
  | fuel + 1, x :: xs => (x :: xs.take (n - 1)) :: chunksOfFuel n fuel (xs.drop (n - 1))

/-- Consecutive chunks of at most `n` rows each (`n ≥ 1`): the splitting of
a row list that the chunked read performs once there is at least one data
row.  Used through `readCsvChunks`. -/
def chunksOf (n : Nat) (l : List α) : List (List α) :=
  chunksOfFuel n l.length l

/-- Model of iterating `pd.read_csv(csv_path, chunksize=n, dtype=str)`: a
file with a header row but zero data rows yields exactly one empty chunk
(the parser's first-chunk read catches `StopIteration` and returns an empty
frame that still carries the header columns), while a file with data rows
yields its consecutive chunks of at most `n` rows with no trailing empty
chunk. -/
def readCsvChunks (n : Nat) (l : List α) : List (List α) :=
  match l with
  | [] => [[]]
  | _ :: _ => chunksOf n l

/-- Observable outcome of `_process_file` on one source file: whether the
output file exists afterwards, its content, the lines appended to the audit
log, and whether the `[CLEAN] No rows with value 100000` notice was printed.
`priorExists` and `prior` describe the output path before the call: `to_csv`
is invoked with `mode="a"`, so it appends to whatever is already there. -/
structure FileResult where
  outExists : Bool
  outContent : List OutLine
  logAppend : List LogLine
  cleanMsg : Bool
deriving DecidableEq

/-- Model of `_process_file`: fold the chunk loop over the 100,000-row chunks
of the file, then flush the log buffer when `removed_any and log_lines`. -/
def processFile (rel : String) (headers : List String) (rows : List (List String))
    (priorExists : Bool) (prior : List OutLine) : FileResult :=
  let chunks := readCsvChunks 100000 rows
  let s := chunks.foldl (stepChunk rel headers) ⟨[], true, false, []⟩
  { outExists := priorExists || !chunks.isEmpty,
    outContent := prior ++ s.out,
    logAppend := if s.removed_any && !s.log_lines.isEmpty then s.log_lines else [],
    cleanMsg := !s.removed_any }

/-- Processing the whole file as one single chunk.  Modelled from the spec:
the comparison point for chunk irrelevance, running the same loop body
exactly once on the full row list (for a header-only file that single chunk
is the empty chunk the chunked read also yields). -/
def processFileOneChunk (rel : String) (headers : List String) (rows : List (List String))
    (priorExists : Bool) (prior : List OutLine) : FileResult :=
  let chunks := [rows]
  let s := chunks.foldl (stepChunk rel headers) ⟨[], true, false, []⟩
  { outExists := priorExists || !chunks.isEmpty,
    outContent := prior ++ s.out,
    logAppend := if s.removed_any && !s.log_lines.isEmpty then s.log_lines else [],
    cleanMsg := !s.removed_any }

/-- Data rows of an output file, in order. -/
def rowsOfOut (out : List OutLine) : List (List String) :=
  out.filterMap (fun l => match l with
    | OutLine.row r => some r
    | _ => none)

/-- Removed rows recorded in a stretch of the audit log, in order. -/
def rowsOfLog (log : List LogLine) : List (List String) :=
  log.filterMap (fun l => match l with
    | LogLine.row r => some r
    | _ => none)

/-- Number of records (`FILE:` lines) in a stretch of the audit log. -/
def fileRecordCount (log : List LogLine) : Nat :=
  log.countP (fun l => match l with
    | LogLine.file _ => true
    | _ => false)

/-- One discovered CSV file: its path relative to the data root, its header
list, and its data rows. -/
structure CsvFile where
  rel : String
  headers : List String
  rows : List (List String)

/-- Observable outcome of `main`: the fatal error, if raised; whether the
cleaned-dataset root and the log file exist afterwards; the log content
appended by this run; and the per-file results in processing order. -/
structure RunResult where
  fatal : Option String
  cleanedRootExists : Bool
  logFileExists : Bool
  logContent : List LogLine
  outputs : List (String × FileResult)

/-- Model of `main`: raise `FileNotFoundError` if the data directory is
missing, otherwise create the cleaned root if absent, delete the previous
log file, and process each discovered CSV file in scan order (`priorOut`
gives the pre-existing state of each output path). -/
def mainRun (dataDirExists cleanedRootPre logPre : Bool)
    (priorOut : String → Bool × List OutLine) (files : List CsvFile) : RunResult :=
  if !dataDirExists then
    { fatal := some "Data directory not found",
      cleanedRootExists := cleanedRootPre,
      logFileExists := logPre,
      logContent := [],
      outputs := [] }
  else if files.isEmpty then
    { fatal := none, cleanedRootExists := true, logFileExists := false,
      logContent := [], outputs := [] }
  else
    let results := files.map (fun f =>
      (f.rel, processFile f.rel f.headers f.rows (priorOut f.rel).1 (priorOut f.rel).2))
    { fatal := none,
      cleanedRootExists := true,
      logFileExists := results.any (fun r => !r.2.logAppend.isEmpty),
      logContent := (results.map (fun r => r.2.logAppend)).flatten,
      outputs := results }

/- Helper lemmas. -/

/-- Kept rows of a chunk: `chunk[~mask]` under the detected role columns. -/
def keptRows (headers : List String) (rows : List (List String)) : List (List String) :=
  rows.filter (fun r => !(removePredOf headers r))

/-- Removed rows of a chunk: `chunk[mask]` under the detected role columns. -/
def removedRows (headers : List String) (rows : List (List String)) : List (List String) :=
  rows.filter (fun r => removePredOf headers r)

lemma isEmpty_append_eq (l l' : List α) : (l ++ l').isEmpty = (l.isEmpty && l'.isEmpty) := by
  cases l <;> simp

lemma chunksOfFuel_of_le (n : Nat) : ∀ (f : Nat) (l : List α), l.length ≤ f →
    chunksOfFuel n f l = chunksOf n l := by
  intro f
  induction f using Nat.strong_induction_on with
  | _ f ih =>
    intro l hl
    cases l with
    | nil => cases f <;> rfl
    | cons x xs =>
      cases f with
      | zero => simp at hl
      | succ f =>
        have hxs : xs.length ≤ f := by simpa using hl
        have hdrop : (xs.drop (n - 1)).length ≤ xs.length := by
          simp only [List.length_drop]; omega
        have e1 : chunksOfFuel n (f + 1) (x :: xs)
            = (x :: xs.take (n - 1)) :: chunksOfFuel n f (xs.drop (n - 1)) := rfl
        have e2 : chunksOf n (x :: xs)
            = (x :: xs.take (n - 1)) :: chunksOfFuel n xs.length (xs.drop (n - 1)) := rfl
        rw [e1, e2, ih f (Nat.lt_succ_self f) _ (le_trans hdrop hxs),
          ih xs.length (Nat.lt_succ_of_le hxs) _ hdrop]

lemma chunksOf_cons (n : Nat) (x : α) (xs : List α) :
    chunksOf n (x :: xs) = (x :: xs.take (n - 1)) :: chunksOf n (xs.drop (n - 1)) := by
  have e2 : chunksOf n (x :: xs)
      = (x :: xs.take (n - 1)) :: chunksOfFuel n xs.length (xs.drop (n - 1)) := rfl
  rw [e2, chunksOfFuel_of_le n xs.length _ (by simp only [List.length_drop]; omega)]

lemma flatten_chunksOf (n : Nat) (l : List α) : (chunksOf n l).flatten = l := by
  suffices H : ∀ (k : Nat) (l : List α), l.length ≤ k → (chunksOf n l).flatten = l from
    H l.length l le_rfl
  intro k
  induction k with
  | zero =>
    intro l hl
    have : l = [] := by cases l <;> simp_all
    subst this; rfl
  | succ k ih =>
    intro l hl
    cases l with
    | nil => rfl
    | cons x xs =>
      rw [chunksOf_cons]
      simp only [List.flatten_cons]
      rw [ih (xs.drop (n - 1)) (by simp only [List.length_drop]; simp at hl; omega)]
      simp [List.take_append_drop]

lemma chunksOf_isEmpty (n : Nat) (l : List α) : (chunksOf n l).isEmpty = l.isEmpty := by
  cases l with
  | nil => rfl
  | cons x xs => rw [chunksOf_cons]; rfl

lemma chunksOf_append_full (n : Nat) (hn : 0 < n) (l m : List α) (hl : l.length = n) :
    chunksOf n (l ++ m) = l :: chunksOf n m := by
  cases l with
  | nil => simp at hl; omega
  | cons x xs =>
    have hxs : xs.length = n - 1 := by simp at hl; omega
    rw [List.cons_append, chunksOf_cons, List.take_left' hxs, List.drop_left' hxs]

lemma readCsvChunks_nil (n : Nat) : readCsvChunks n ([] : List α) = [[]] := rfl

lemma readCsvChunks_cons (n : Nat) (x : α) (xs : List α) :
    readCsvChunks n (x :: xs) = chunksOf n (x :: xs) := rfl

lemma flatten_readCsvChunks (n : Nat) (l : List α) : (readCsvChunks n l).flatten = l := by
  cases l with
  | nil => rfl
  | cons x xs => rw [readCsvChunks_cons, flatten_chunksOf]

lemma readCsvChunks_isEmpty (n : Nat) (l : List α) : (readCsvChunks n l).isEmpty = false := by
  cases l with
  | nil => rfl
  | cons x xs => rw [readCsvChunks_cons, chunksOf_cons]; rfl

lemma stepChunk_eq (rel : String) (headers : List String) (s : FileState)
    (chunk : List (List String)) :
    stepChunk rel headers s chunk =
      { out := s.out ++ writeChunk headers s.first_chunk (keptRows headers chunk),
        first_chunk := false,
        removed_any := s.removed_any || !(removedRows headers chunk).isEmpty,
        log_lines := s.log_lines ++ chunkLogLines rel headers (removedRows headers chunk) } := by
  unfold stepChunk keptRows removedRows removePredOf
  by_cases h1 : (state_district_columns headers).1.isNone
    && (state_district_columns headers).2.isNone
  · rw [if_pos h1]
    simp only [Bool.and_eq_true, Option.isNone_iff_eq_none] at h1
    rw [h1.1, h1.2]
    have hmask : ∀ r : List String, removeMask none none headers r = false := fun _ => rfl
    simp [hmask, chunkLogLines]
  · rw [if_neg h1]

lemma foldl_stepChunk_out (rel : String) (h : List String) :
    ∀ (cs : List (List (List String))) (s : FileState),
      (cs.foldl (stepChunk rel h) s).out =
        s.out ++ (if s.first_chunk && !cs.isEmpty then [OutLine.header h] else [])
          ++ (keptRows h cs.flatten).map OutLine.row := by
  intro cs
  induction cs with
  | nil => intro s; simp [keptRows]
  | cons c cs ih =>
    intro s
    rw [List.foldl_cons, stepChunk_eq, ih]
    simp [writeChunk, keptRows, List.filter_append, List.append_assoc]

lemma foldl_stepChunk_log (rel : String) (h : List String) :
    ∀ (cs : List (List (List String))) (s : FileState),
      (cs.foldl (stepChunk rel h) s).log_lines =
        s.log_lines ++ (cs.map (fun c => chunkLogLines rel h (removedRows h c))).flatten := by
  intro cs
  induction cs with
  | nil => intro s; simp
  | cons c cs ih =>
    intro s
    rw [List.foldl_cons, stepChunk_eq, ih]
    simp [List.append_assoc]

lemma foldl_stepChunk_removed (rel : String) (h : List String) :
    ∀ (cs : List (List (List String))) (s : FileState),
      (cs.foldl (stepChunk rel h) s).removed_any =
        (s.removed_any || cs.any (fun c => !(removedRows h c).isEmpty)) := by
  intro cs
  induction cs with
  | nil => intro s; simp
  | cons c cs ih =>
    intro s
    rw [List.foldl_cons, stepChunk_eq, ih]
    simp [Bool.or_assoc]

lemma removedRows_append (h : List String) (a b : List (List String)) :
    removedRows h (a ++ b) = removedRows h a ++ removedRows h b := by
  simp [removedRows, List.filter_append]

lemma any_removed_flatten (h : List String) :
    ∀ cs : List (List (List String)),
      cs.any (fun c => !(removedRows h c).isEmpty) = !(removedRows h cs.flatten).isEmpty := by
  intro cs
  induction cs with
  | nil => simp [removedRows]
  | cons c cs ih =>
    simp only [List.any_cons, List.flatten_cons, removedRows_append, isEmpty_append_eq, ih]
    cases (removedRows h c).isEmpty <;> simp

lemma chunkLogLines_isEmpty (rel : String) (h : List String) (rem : List (List String)) :
    (chunkLogLines rel h rem).isEmpty = rem.isEmpty := by
  unfold chunkLogLines
  split <;> simp_all

lemma log_flatten_isEmpty (rel : String) (h : List String) :
    ∀ cs : List (List (List String)),
      ((cs.map (fun c => chunkLogLines rel h (removedRows h c))).flatten).isEmpty
        = !(cs.any (fun c => !(removedRows h c).isEmpty)) := by
  intro cs
  induction cs with
  | nil => simp
  | cons c cs ih =>
    simp only [List.map_cons, List.flatten_cons, List.any_cons, isEmpty_append_eq,
      chunkLogLines_isEmpty, ih]
    cases rem : (removedRows h c).isEmpty <;> simp

lemma processFile_eq (rel : String) (h : List String) (rows : List (List String))
    (pe : Bool) (prior : List OutLine) :
    processFile rel h rows pe prior =
      { outExists := true,
        outContent := prior ++ (OutLine.header h :: (keptRows h rows).map OutLine.row),
        logAppend := ((readCsvChunks 100000 rows).map
          (fun c => chunkLogLines rel h (removedRows h c))).flatten,
        cleanMsg := (removedRows h rows).isEmpty } := by
  have hrem := foldl_stepChunk_removed rel h (readCsvChunks 100000 rows) ⟨[], true, false, []⟩
  rw [any_removed_flatten, flatten_readCsvChunks] at hrem
  have hlogEmpty := log_flatten_isEmpty rel h (readCsvChunks 100000 rows)
  rw [any_removed_flatten, flatten_readCsvChunks] at hlogEmpty
  simp only [processFile, FileResult.mk.injEq, foldl_stepChunk_out, foldl_stepChunk_log, hrem,
    flatten_readCsvChunks, readCsvChunks_isEmpty, List.nil_append, Bool.false_or, Bool.true_and,
    Bool.not_not, Bool.not_false, Bool.or_true, Bool.and_true, if_true, List.singleton_append]
  refine ⟨trivial, ?_⟩
  cases hre : (removedRows h rows).isEmpty <;> simp_all

lemma processFileOneChunk_eq (rel : String) (h : List String) (rows : List (List String))
    (pe : Bool) (prior : List OutLine) :
    processFileOneChunk rel h rows pe prior =
      { outExists := true,
        outContent := prior ++ (OutLine.header h :: (keptRows h rows).map OutLine.row),
        logAppend := chunkLogLines rel h (removedRows h rows),
        cleanMsg := (removedRows h rows).isEmpty } := by
  simp only [processFileOneChunk, List.foldl_cons, List.foldl_nil, stepChunk_eq, writeChunk]
  cases hre : (removedRows h rows).isEmpty <;>
    simp_all [FileResult.mk.injEq, chunkLogLines_isEmpty, chunkLogLines]

lemma rowsOfOut_append (a b : List OutLine) : rowsOfOut (a ++ b) = rowsOfOut a ++ rowsOfOut b := by
  simp [rowsOfOut]

lemma rowsOfOut_map_row (rows : List (List String)) : rowsOfOut (rows.map OutLine.row) = rows := by
  induction rows with
  | nil => rfl
  | cons r rs ih => simpa [rowsOfOut, List.filterMap_cons] using ih

lemma rowsOfLog_append (a b : List LogLine) : rowsOfLog (a ++ b) = rowsOfLog a ++ rowsOfLog b := by
  simp [rowsOfLog]

lemma rowsOfLog_map_row (rows : List (List String)) : rowsOfLog (rows.map LogLine.row) = rows := by
  induction rows with
  | nil => rfl
  | cons r rs ih => simpa [rowsOfLog, List.filterMap_cons] using ih

lemma rowsOfLog_chunkLogLines (rel : String) (h : List String) (rem : List (List String)) :
    rowsOfLog (chunkLogLines rel h rem) = rem := by
  unfold chunkLogLines
  split
  · next hre => rw [List.isEmpty_iff.mp hre]; rfl
  · show rowsOfLog (LogLine.file rel :: LogLine.header h :: (rem.map LogLine.row ++ [LogLine.blank])) = rem
    simp [rowsOfLog, List.filterMap_cons, List.filterMap_append]
    have := rowsOfLog_map_row rem
    simpa [rowsOfLog] using this

lemma rowsOfLog_flatten_chunkLog (rel : String) (h : List String) :
    ∀ cs : List (List (List String)),
      rowsOfLog ((cs.map (fun c => chunkLogLines rel h (removedRows h c))).flatten)
        = removedRows h cs.flatten := by
  intro cs
  induction cs with
  | nil => rfl
  | cons c cs ih =>
    simp only [List.map_cons, List.flatten_cons, rowsOfLog_append, ih, removedRows_append,
      rowsOfLog_chunkLogLines]

lemma processFile_rowsOfOut (rel : String) (h : List String) (rows : List (List String))
    (pe : Bool) (prior : List OutLine) :
    rowsOfOut (processFile rel h rows pe prior).outContent
      = rowsOfOut prior ++ keptRows h rows := by
  rw [processFile_eq]
  rw [rowsOfOut_append]
  congr 1
  have hh : rowsOfOut (OutLine.header h :: (keptRows h rows).map OutLine.row)
      = rowsOfOut ((keptRows h rows).map OutLine.row) := by
    simp [rowsOfOut, List.filterMap_cons]
  rw [hh, rowsOfOut_map_row]

lemma processFile_rowsOfLog (rel : String) (h : List String) (rows : List (List String))
    (pe : Bool) (prior : List OutLine) :
    rowsOfLog (processFile rel h rows pe prior).logAppend = removedRows h rows := by
  rw [processFile_eq]
  show rowsOfLog ((List.map (fun c => chunkLogLines rel h (removedRows h c))
    (readCsvChunks 100000 rows)).flatten) = removedRows h rows
  rw [rowsOfLog_flatten_chunkLog, flatten_readCsvChunks]

lemma processFile_logAppend (rel : String) (h : List String) (rows : List (List String))
    (pe : Bool) (prior : List OutLine) :
    (processFile rel h rows pe prior).logAppend
      = ((chunksOf 100000 rows).map (fun c => chunkLogLines rel h (removedRows h c))).flatten := by
  rw [processFile_eq]
  cases rows with
  | nil => rfl
  | cons x xs => rfl

lemma fileRecordCount_append (a b : List LogLine) :
    fileRecordCount (a ++ b) = fileRecordCount a + fileRecordCount b := by
  simp [fileRecordCount, List.countP_append]

lemma fileRecordCount_map_row (rows : List (List String)) :
    fileRecordCount (rows.map LogLine.row) = 0 := by
  induction rows with
  | nil => rfl
  | cons r rs ih => simp [fileRecordCount, List.countP_cons]

lemma fileRecordCount_chunkLogLines (rel : String) (h : List String) (rem : List (List String)) :
    fileRecordCount (chunkLogLines rel h rem) = if rem.isEmpty then 0 else 1 := by
  unfold chunkLogLines
  split
  · rfl
  · have := fileRecordCount_map_row rem
    simp_all [fileRecordCount, List.countP_cons, List.countP_append]

lemma fileRecordCount_flatten_chunkLog (rel : String) (h : List String) :
    ∀ cs : List (List (List String)),
      fileRecordCount ((cs.map (fun c => chunkLogLines rel h (removedRows h c))).flatten)
        = (cs.filter (fun c => !(removedRows h c).isEmpty)).length := by
  intro cs
  induction cs with
  | nil => rfl
  | cons c cs ih =>
    simp only [List.map_cons, List.flatten_cons, List.filter_cons, fileRecordCount_append,
      fileRecordCount_chunkLogLines, ih]
    cases hre : (removedRows h c).isEmpty <;> simp [Nat.add_comm]

/- Claim theorems. -/

/-- C1: for every input file, a row appears in the cleaned output exactly when
it is not removed, a row is removed exactly when a detected state column holds
the exact string "100000" or a detected district column does (raw string
equality, no coercion, trimming or case folding), and with no detected role
column every row is kept. -/
theorem c1_kept_iff_not_removed (rel : String) (h : List String) (rows : List (List String)) :
    rowsOfOut (processFile rel h rows false []).outContent
        = rows.filter (fun r => !(removePredOf h r))
    ∧ rowsOfLog (processFile rel h rows false []).logAppend
        = rows.filter (fun r => removePredOf h r)
    ∧ (∀ r : List String, removePredOf h r =
        ((match (state_district_columns h).1 with
          | some c => colValue h r c == some "100000"
          | none => false)
        || (match (state_district_columns h).2 with
          | some c => colValue h r c == some "100000"
          | none => false)))
    ∧ ((state_district_columns h).1 = none → (state_district_columns h).2 = none →
        rowsOfOut (processFile rel h rows false []).outContent = rows) := by
  refine ⟨?_, ?_, fun r => rfl, ?_⟩
  · rw [processFile_rowsOfOut]
    simp [rowsOfOut, keptRows]
  · rw [processFile_rowsOfLog]
    rfl
  · intro h1 h2
    rw [processFile_rowsOfOut]
    simp [rowsOfOut, keptRows, removePredOf, h1, h2, removeMask]

/-- C1 witness: with no role column detected (headers `["a"]`) the single row
is kept verbatim. -/
theorem c1_kept_iff_not_removed_witness :
    rowsOfOut (processFile "f" ["a"] [["1"]] false []).outContent = [["1"]] :=
  (c1_kept_iff_not_removed "f" ["a"] [["1"]]).2.2.2 rfl rfl

/-- C2: for every input file, kept rows written to the output plus removed
rows recorded in the audit log add up to the input rows: the partition is
total and disjoint. -/
theorem c2_partition_total (rel : String) (h : List String) (rows : List (List String)) :
    (rowsOfOut (processFile rel h rows false []).outContent).length
      + (rowsOfLog (processFile rel h rows false []).logAppend).length = rows.length := by
  rw [processFile_rowsOfOut, processFile_rowsOfLog]
  simp only [rowsOfOut, List.filterMap_nil, List.nil_append, keptRows, removedRows]
  have hlen := List.length_eq_length_filter_add (l := rows) (fun r => removePredOf h r)
  omega

/-- C3: for every input file, the kept rows in the output and the removed rows
in the audit log are both subsequences of the input rows in original order. -/
theorem c3_order_preserved (rel : String) (h : List String) (rows : List (List String)) :
    List.Sublist (rowsOfOut (processFile rel h rows false []).outContent) rows
    ∧ List.Sublist (rowsOfLog (processFile rel h rows false []).logAppend) rows := by
  rw [processFile_rowsOfOut, processFile_rowsOfLog]
  constructor
  · simp only [rowsOfOut, List.filterMap_nil, List.nil_append, keptRows]
    exact List.filter_sublist rows
  · exact List.filter_sublist rows

/-- C4: processing in 100,000-row chunks yields the same kept-row sequence and
the same removed-row sequence as processing the whole file as one chunk; the
per-chunk re-detection of role columns over the same header list changes
nothing. -/
theorem c4_chunking_semantics_free (rel : String) (h : List String) (rows : List (List String)) :
    rowsOfOut (processFile rel h rows false []).outContent
        = rowsOfOut (processFileOneChunk rel h rows false []).outContent
    ∧ rowsOfLog (processFile rel h rows false []).logAppend
        = rowsOfLog (processFileOneChunk rel h rows false []).logAppend := by
  rw [processFile_eq, processFileOneChunk_eq]
  refine ⟨rfl, ?_⟩
  show rowsOfLog ((List.map (fun c => chunkLogLines rel h (removedRows h c))
    (readCsvChunks 100000 rows)).flatten) = rowsOfLog (chunkLogLines rel h (removedRows h rows))
  rw [rowsOfLog_flatten_chunkLog, flatten_readCsvChunks, rowsOfLog_chunkLogLines]

/-- C10 counterexample: a header-only file is read as one empty chunk, not
zero, and that chunk's `to_csv(mode="a", header=True)` creates the output
file and writes the mirrored header line — refuting the claim that zero
chunks are read and no output file is written at all. -/
theorem c10_counterexample :
    readCsvChunks 100000 ([] : List (List String)) ≠ []
    ∧ (processFile "f" ["a"] [] false []).outExists = true
    ∧ (processFile "f" ["a"] [] false []).outContent = [OutLine.header ["a"]] := by
  decide

/-- C10 amended: a file with a header row but zero data rows is read as one
empty chunk; the processor therefore creates the output file and writes
exactly the mirrored header line and nothing else, reports the file as
having no rows to remove, and does not modify the audit log. -/
theorem c10_header_only_writes_header (rel : String) (h : List String) :
    readCsvChunks 100000 ([] : List (List String)) = [[]]
    ∧ processFile rel h [] false []
        = { outExists := true, outContent := [OutLine.header h],
            logAppend := [], cleanMsg := true } := by
  refine ⟨rfl, ?_⟩
  rw [processFile_eq]
  simp [keptRows, removedRows, readCsvChunks_nil, chunkLogLines]

/-- C8: when the input data root is missing, the run fails with the fatal
error before touching anything: the cleaned root is not created, the audit
log is not deleted, nothing is appended to it, and no output file is
processed. -/
theorem c8_missing_data_dir (cleanedRootPre logPre : Bool)
    (priorOut : String → Bool × List OutLine) (files : List CsvFile) :
    mainRun false cleanedRootPre logPre priorOut files =
      { fatal := some "Data directory not found",
        cleanedRootExists := cleanedRootPre,
        logFileExists := logPre,
        logContent := [],
        outputs := [] } := rfl

/-- C5 counterexample: a file whose removed rows span two chunks (100,001
rows all hitting the sentinel) gets two `FILE:` records in the audit log,
not exactly one. -/
theorem c5_counterexample :
    fileRecordCount ((processFile "f" ["state"]
        (List.replicate 100000 [("100000" : String)] ++ [["100000"]]) false []).logAppend)
      = 2 := by
  have hp : removePredOf ["state"] ["100000"] = true := by decide
  have hrep : removedRows ["state"] (List.replicate 100000 [("100000" : String)])
      = List.replicate 100000 [("100000" : String)] := by
    rw [show removedRows ["state"] (List.replicate 100000 [("100000" : String)])
        = List.filter (fun r => removePredOf ["state"] r)
            (List.replicate 100000 [("100000" : String)]) from rfl]
    rw [List.filter_replicate, if_pos hp]
  have h2 : removedRows ["state"] [[("100000" : String)]] = [["100000"]] := by
    simp [removedRows, hp]
  have hchunks : chunksOf 100000 (List.replicate 100000 [("100000" : String)] ++ [["100000"]])
      = [List.replicate 100000 [("100000" : String)], [["100000"]]] := by
    rw [chunksOf_append_full 100000 (by norm_num) _ _ (by rw [List.length_replicate])]
    rfl
  rw [processFile_logAppend, hchunks]
  simp only [List.map_cons, List.map_nil, List.flatten_cons, List.flatten_nil,
    fileRecordCount_append, fileRecordCount_chunkLogLines, hrep, h2, List.append_nil]
  have hne : (List.replicate 100000 [("100000" : String)]).isEmpty = false := by
    rw [show (100000 : Nat) = 99999 + 1 from rfl, List.replicate_succ]
    rfl
  rw [hne]
  rfl

/-- C5 amended: the audit log holds one record per 100,000-row chunk that had
at least one removed row (each record being the `FILE:` line, a header line,
that chunk's removed rows, and a blank separator line); a file whose removed
rows span several chunks contributes one record per such chunk, not one
record in total. -/
theorem c5_one_record_per_chunk (rel : String) (h : List String) (rows : List (List String)) :
    (processFile rel h rows false []).logAppend
        = ((chunksOf 100000 rows).map (fun c => chunkLogLines rel h (removedRows h c))).flatten
    ∧ fileRecordCount ((processFile rel h rows false []).logAppend)
        = ((chunksOf 100000 rows).filter (fun c => !(removedRows h c).isEmpty)).length := by
  refine ⟨processFile_logAppend rel h rows false [], ?_⟩
  rw [processFile_logAppend]
  exact fileRecordCount_flatten_chunkLog rel h (chunksOf 100000 rows)

/-- C6 counterexample: with pre-existing content at the output path, the run
appends after it rather than overwriting, so the output is not determined by
the current input alone. -/
theorem c6_counterexample :
    (processFile "f" ["state"] [["5"]] true [OutLine.row ["junk"]]).outContent
        = [OutLine.row ["junk"], OutLine.header ["state"], OutLine.row ["5"]]
    ∧ (processFile "f" ["state"] [["5"]] true [OutLine.row ["junk"]]).outContent
        ≠ (processFile "f" ["state"] [["5"]] false []).outContent := by
  decide

/-- C6 amended: processing opens the output file in append mode (creating it
when missing): content that existed at the output path before the run
survives, followed by this run's header line and kept rows — the output file
always exists afterwards, even for a header-only input. -/
theorem c6_append_not_overwrite (rel : String) (h : List String) (rows : List (List String))
    (priorExists : Bool) (prior : List OutLine) :
    (processFile rel h rows priorExists prior).outContent
        = prior ++ (OutLine.header h :: (keptRows h rows).map OutLine.row)
    ∧ (processFile rel h rows priorExists prior).outExists = true := by
  rw [processFile_eq]
  exact ⟨rfl, rfl⟩

lemma dictInsert_keys (d : List (String × String)) (k v : String) :
    (dictInsert d k v).map Prod.fst
      = if d.any (fun p => p.1 == k) then d.map Prod.fst else d.map Prod.fst ++ [k] := by
  unfold dictInsert
  split
  · next hany =>
    rw [List.map_map]
    apply List.map_congr_left
    intro p hp
    by_cases hpk : (p.1 == k) = true
    · simp only [Function.comp_apply, if_pos hpk]
      exact (eq_of_beq hpk).symm
    · simp only [Function.comp_apply, if_neg hpk]
  · next hany => simp

lemma lowerCols_snoc (cols : List String) (c : String) :
    lowerCols (cols ++ [c]) = dictInsert (lowerCols cols) (lowerStr c) c := by
  rw [lowerCols, List.foldl_append]
  rfl

lemma mem_lowerCols_keys (columns : List String) (k : String) :
    k ∈ (lowerCols columns).map Prod.fst ↔ k ∈ columns.map lowerStr := by
  induction columns using List.reverseRecOn with
  | nil => simp [lowerCols]
  | append_singleton cols c ih =>
    rw [lowerCols_snoc, dictInsert_keys]
    split
    · next hany =>
      have hmem : lowerStr c ∈ (lowerCols cols).map Prod.fst := by
        obtain ⟨p, hp, hpk⟩ := List.any_eq_true.mp hany
        exact List.mem_map.mpr ⟨p, hp, eq_of_beq hpk⟩
      simp only [List.map_append, List.mem_append, List.map_cons, List.map_nil,
        List.mem_singleton, ih]
      constructor
      · intro hk; left; exact hk
      · intro hk
        cases hk with
        | inl h' => exact h'
        | inr h' =>
          subst h'
          exact ih.mp hmem
    · next hany =>
      simp only [List.map_append, List.mem_append, List.map_cons, List.map_nil,
        List.mem_singleton, ih]

lemma lowerCols_foldl_nodup :
    ∀ (columns : List String) (d : List (String × String)),
      (d.map Prod.fst ++ columns.map lowerStr).Nodup →
      columns.foldl (fun d c => dictInsert d (lowerStr c) c) d
        = d ++ columns.map (fun c => (lowerStr c, c)) := by
  intro columns
  induction columns with
  | nil => intro d _; simp
  | cons c cs ih =>
    intro d hnd
    have hnotmem : lowerStr c ∉ d.map Prod.fst := by
      rw [List.nodup_append] at hnd
      intro hc
      exact hnd.2.2 hc (by simp)
    have hany : d.any (fun p => p.1 == lowerStr c) = false := by
      rw [List.any_eq_false]
      intro p hp hpk
      exact hnotmem (List.mem_map.mpr ⟨p, hp, eq_of_beq hpk⟩)
    have hins : dictInsert d (lowerStr c) c = d ++ [(lowerStr c, c)] := by
      unfold dictInsert
      rw [hany]
      rfl
    have hnd' : ((d ++ [(lowerStr c, c)]).map Prod.fst ++ cs.map lowerStr).Nodup := by
      have he : (d ++ [(lowerStr c, c)]).map Prod.fst ++ cs.map lowerStr
          = d.map Prod.fst ++ (c :: cs).map lowerStr := by
        rw [List.map_append, List.append_assoc]
        rfl
      rw [he]
      exact hnd
    rw [List.foldl_cons, hins, ih (d ++ [(lowerStr c, c)]) hnd']
    simp

lemma lowerCols_nodup_eq (columns : List String) (hnd : (columns.map lowerStr).Nodup) :
    lowerCols columns = columns.map (fun c => (lowerStr c, c)) := by
  have := lowerCols_foldl_nodup columns [] (by simpa using hnd)
  simpa [lowerCols] using this

lemma lowerCols_mem_last (columns : List String) :
    ∀ k v : String, (k, v) ∈ lowerCols columns →
      lowerStr v = k ∧ (columns.reverse.find? (fun c => lowerStr c == k)) = some v := by
  induction columns using List.reverseRecOn with
  | nil => intro k v hv; simp [lowerCols] at hv
  | append_singleton cols c ih =>
    intro k v hv
    rw [lowerCols_snoc] at hv
    rw [List.reverse_append, List.reverse_singleton, List.singleton_append]
    unfold dictInsert at hv
    by_cases hany : ((lowerCols cols).any (fun p => p.1 == lowerStr c)) = true
    · rw [if_pos hany] at hv
      obtain ⟨⟨k', v'⟩, hmem, hupd⟩ := List.mem_map.mp hv
      by_cases hk' : (k' == lowerStr c) = true
      · rw [if_pos hk'] at hupd
        obtain ⟨hk, hvv⟩ := Prod.mk.injEq .. ▸ hupd
        subst hk; subst hvv
        refine ⟨rfl, ?_⟩
        show List.find? (fun x => lowerStr x == lowerStr c) (c :: cols.reverse) = some c
        rw [List.find?_cons_of_pos _ (by simp)]
      · rw [if_neg hk'] at hupd
        obtain ⟨hk, hvv⟩ := Prod.mk.injEq .. ▸ hupd
        subst hk; subst hvv
        obtain ⟨h1, h2⟩ := ih k' v' hmem
        refine ⟨h1, ?_⟩
        rw [List.find?_cons_of_neg _ (by
          simp only [beq_iff_eq]
          intro he
          exact hk' (by rw [he]; exact beq_self_eq_true k')), h2]
    · rw [if_neg hany] at hv
      rcases List.mem_append.mp hv with hmem | hmem
      · have hkne : k ≠ lowerStr c := by
          intro he
          exact hany (List.any_eq_true.mpr ⟨(k, v), hmem, by rw [he]; simp⟩)
        obtain ⟨h1, h2⟩ := ih k v hmem
        refine ⟨h1, ?_⟩
        rw [List.find?_cons_of_neg _ (by
          simp only [beq_iff_eq]
          exact fun he => hkne he.symm), h2]
      · have hp : (k, v) = (lowerStr c, c) := by simpa using hmem
        obtain ⟨hk, hvv⟩ := Prod.mk.injEq .. ▸ hp
        subst hk; subst hvv
        refine ⟨rfl, ?_⟩
        rw [List.find?_cons_of_pos _ (by simp)]

lemma firstMatch_eq_none_iff (sub : String) (columns : List String) :
    firstMatch sub (lowerCols columns) = none
      ↔ ∀ c ∈ columns, containsSub sub (lowerStr c) = false := by
  unfold firstMatch
  rw [Option.map_eq_none', List.find?_eq_none]
  constructor
  · intro H c hc
    by_contra hcc
    have hcc' : containsSub sub (lowerStr c) = true := by
      cases hx : containsSub sub (lowerStr c) <;> simp_all
    have hkey : lowerStr c ∈ (lowerCols columns).map Prod.fst :=
      (mem_lowerCols_keys columns (lowerStr c)).mpr (List.mem_map.mpr ⟨c, hc, rfl⟩)
    obtain ⟨p, hp, hpfst⟩ := List.mem_map.mp hkey
    apply H p hp
    rw [hpfst]
    exact hcc'
  · intro H p hp
    have hkey : p.1 ∈ (lowerCols columns).map Prod.fst := List.mem_map.mpr ⟨p, hp, rfl⟩
    obtain ⟨c, hc, hlc⟩ := List.mem_map.mp ((mem_lowerCols_keys columns p.1).mp hkey)
    rw [← hlc]
    simp [H c hc]

lemma firstMatch_nodup (sub : String) (columns : List String)
    (hnd : (columns.map lowerStr).Nodup) :
    firstMatch sub (lowerCols columns)
      = columns.find? (fun c => containsSub sub (lowerStr c)) := by
  unfold firstMatch
  rw [lowerCols_nodup_eq columns hnd, List.find?_map, Option.map_map]
  show Option.map (fun c => c) (columns.find? (fun c => containsSub sub (lowerStr c))) = _
  cases columns.find? (fun c => containsSub sub (lowerStr c)) <;> rfl

lemma firstMatch_some_mem (sub : String) (d : List (String × String)) (v : String)
    (hv : firstMatch sub d = some v) :
    ∃ k, (k, v) ∈ d ∧ containsSub sub k = true := by
  unfold firstMatch at hv
  cases hfind : d.find? (fun p => containsSub sub p.1) with
  | none => rw [hfind] at hv; simp at hv
  | some p =>
    rw [hfind] at hv
    simp only [Option.map_some'] at hv
    obtain rfl := Option.some_inj.mp hv
    refine ⟨p.1, ?_, by simpa using List.find?_some hfind⟩
    exact List.mem_of_find?_eq_some hfind

/-- C7 counterexample: with headers `["state_a", "state_b"]` both match
"state", and the detector returns the first, `"state_a"`, not the most
recent (last) match `"state_b"`. -/
theorem c7_counterexample :
    (state_district_columns ["state_a", "state_b"]).1 = some "state_a"
    ∧ (state_district_columns ["state_a", "state_b"]).1 ≠ some "state_b" := by
  decide

/-- C7 amended: the detector returns, per role, the value stored under the
first key of the lookup structure (first occurrence order of lowercased
names) containing the role substring — for headers with pairwise distinct
lowercased forms this is the first matching header in input order; the two
roles are evaluated independently, and a role with no matching header is
returned as absent. -/
theorem c7_first_not_most_recent (columns : List String) :
    ((state_district_columns columns).1 = none
        ↔ ∀ c ∈ columns, containsSub "state" (lowerStr c) = false)
    ∧ ((state_district_columns columns).2 = none
        ↔ ∀ c ∈ columns, containsSub "district" (lowerStr c) = false)
    ∧ ((columns.map lowerStr).Nodup →
        state_district_columns columns
          = (columns.find? (fun c => containsSub "state" (lowerStr c)),
             columns.find? (fun c => containsSub "district" (lowerStr c)))) := by
  refine ⟨firstMatch_eq_none_iff "state" columns, firstMatch_eq_none_iff "district" columns, ?_⟩
  intro hnd
  unfold state_district_columns
  rw [firstMatch_nodup "state" columns hnd, firstMatch_nodup "district" columns hnd]

/-- C7 witness: on the spec's example headers the amended rule picks
`StateCode` and `District_Name`, and a single header matching both
substrings is returned for both roles. -/
theorem c7_first_not_most_recent_witness :
    state_district_columns ["ID", "StateCode", "District_Name", "Value"]
        = (some "StateCode", some "District_Name")
    ∧ state_district_columns ["state_district"]
        = (some "state_district", some "state_district") := by
  constructor
  · rw [(c7_first_not_most_recent ["ID", "StateCode", "District_Name", "Value"]).2.2 (by decide)]
    decide
  · rw [(c7_first_not_most_recent ["state_district"]).2.2 (by decide)]
    decide

/-- C9: for headers with pairwise distinct lowercased forms the detector
returns the first header in input order whose lowercased name contains the
role substring; in general the lookup structure stores, under each
lowercased key, the last original spelling with that lowercased form, and
any value the detector returns is such a stored value. -/
theorem c9_lookup_retains_later_spelling (columns : List String) :
    ((columns.map lowerStr).Nodup →
        state_district_columns columns
          = (columns.find? (fun c => containsSub "state" (lowerStr c)),
             columns.find? (fun c => containsSub "district" (lowerStr c))))
    ∧ (∀ k v : String, (k, v) ∈ lowerCols columns →
        lowerStr v = k ∧ (columns.reverse.find? (fun c => lowerStr c == k)) = some v)
    ∧ (∀ v : String, (state_district_columns columns).1 = some v →
        ∃ k, (k, v) ∈ lowerCols columns ∧ containsSub "state" k = true)
    ∧ (∀ v : String, (state_district_columns columns).2 = some v →
        ∃ k, (k, v) ∈ lowerCols columns ∧ containsSub "district" k = true) := by
  refine ⟨?_, lowerCols_mem_last columns, ?_, ?_⟩
  · intro hnd
    unfold state_district_columns
    rw [firstMatch_nodup "state" columns hnd, firstMatch_nodup "district" columns hnd]
  · intro v hv
    exact firstMatch_some_mem "state" (lowerCols columns) v hv
  · intro v hv
    exact firstMatch_some_mem "district" (lowerCols columns) v hv

/-- C9 witness: with distinct lowercased headers the first match in input
order is returned; with headers `["StateY", "STATEY"]` sharing a lowercased
form, the stored spelling is the later `"STATEY"`, and the detector returns
it. -/
theorem c9_lookup_retains_later_spelling_witness :
    state_district_columns ["ID", "StateCode"]
        = (["ID", "StateCode"].find? (fun c => containsSub "state" (lowerStr c)),
           ["ID", "StateCode"].find? (fun c => containsSub "district" (lowerStr c)))
    ∧ (lowerStr "STATEY" = "statey"
        ∧ ["StateY", "STATEY"].reverse.find? (fun c => lowerStr c == "statey") = some "STATEY")
    ∧ state_district_columns ["StateY", "STATEY"] = (some "STATEY", none) := by
  refine ⟨(c9_lookup_retains_later_spelling ["ID", "StateCode"]).1 (by decide), ?_, by decide⟩
  exact (c9_lookup_retains_later_spelling ["StateY", "STATEY"]).2.1 "statey" "STATEY" (by decide)
